import Mathlib

/-!
Verification development for the fauldier LCI normalization pipeline.

The Python source is embedded shallowly:
  * strings are Lean `String`s, manipulated through the `List Char`
    representation with structural recursion (so every definition is
    executable and kernel-reducible);
  * Python floats are modelled as exact rationals: `ℚ` where only small
    literals occur, and the executable fraction type `Frac` where values
    must evaluate inside proofs; the IEEE-754 specials `inf`/`nan` are not
    representable and parse to `none`;
  * code that can raise an exception returns an `Option`, with `none`
    standing for the raised exception;
  * pandas DataFrames are modelled as typed column collections, one model
    per function family, documented at each definition.
-/

/-! ## Character and string primitives -/

/-- Word character of the regex class `\w`, restricted to ASCII (the source
patterns are ASCII). -/
def isWordChar (c : Char) : Bool := c.isAlphanum || c = '_'

/-- ASCII whitespace stripped by Python `str.strip()` (Unicode whitespace
beyond ASCII is not modelled). -/
def isPyWhitespace (c : Char) : Bool :=
  c = ' ' || c = '\t' || c = '\n' || c = '\r' || c = '\x0c' || c = '\x0b'

/-- `str.strip()` on the character list. -/
def stripChars (s : List Char) : List Char :=
  ((s.dropWhile isPyWhitespace).reverse.dropWhile isPyWhitespace).reverse

/-- Python `str.strip()`. -/
def pyStrip (s : String) : String := String.mk (stripChars s.data)

/-- Python `str.lower()` (ASCII case folding, as `Char.toLower`). -/
def pyLower (s : String) : String := String.mk (s.data.map Char.toLower)

/-- Case-insensitive prefix test on character lists. -/
def startsWithCI : List Char → List Char → Bool
  | [], _ => true
  | _ :: _, [] => false
  | p :: ps, c :: cs => (p.toLower == c.toLower) && startsWithCI ps cs

/-- Case-insensitive substring search, helper on character lists. -/
def containsCIAux (p : List Char) : List Char → Bool
  | [] => p.isEmpty
  | s@(_ :: cs) => startsWithCI p s || containsCIAux p cs

/-- Models `pandas.Series.str.contains(pat, case=False)` for a literal
pattern `pat`, and `re.search(pat, s, re.IGNORECASE)` for a plain-text
pattern: case-insensitive substring test. -/
def containsCI (pat s : String) : Bool := containsCIAux pat.data s.data

/-- Case-sensitive substring search, helper on character lists. -/
def containsSubAux (p : List Char) : List Char → Bool
  | [] => p.isEmpty
  | s@(_ :: cs) => p.isPrefixOf s || containsSubAux p cs

/-- The Python `in` operator on strings: case-sensitive substring test. -/
def containsSub (pat s : String) : Bool := containsSubAux pat.data s.data

/-- Does the word `w` match at the head of `s` (case-insensitively), ending
at a word boundary (`\b` after the word)? -/
def matchWordHere (w s : List Char) : Bool :=
  startsWithCI w s &&
    (match s.drop w.length with
     | [] => true
     | d :: _ => !(isWordChar d))

/-- Scan for a whole-word occurrence; `prev` is the character before the
current position (`none` at the start of the string). -/
def searchWholeWord (w : List Char) : Option Char → List Char → Bool
  | _, [] => false
  | prev, c :: cs =>
    ((match prev with
      | none => true
      | some p => !(isWordChar p)) && matchWordHere w (c :: cs))
      || searchWholeWord w (some c) cs

/-- Models `re.search(r'\b<w>\b', s, re.IGNORECASE) is not None` for a word
`w` made of word characters.  The source patterns append `[^\w]*` after the
closing `\b`, which matches the empty string and so does not change whether
the search succeeds. -/
def containsWholeWordCI (w s : String) : Bool := searchWholeWord w.data none s.data

/-- Python `s.replace(q, r)` on character lists: leftmost, non-overlapping
occurrences of `q` replaced by `r`.  Structural recursion on a fuel that
starts at the string's length (each step consumes at least one character,
so the fuel never runs out); every pattern the source replaces is
non-empty, and Python's behaviour for an empty pattern is not modelled. -/
def replaceListAux (q r : List Char) : Nat → List Char → List Char
  | 0, s => s
  | _ + 1, [] => []
  | fuel + 1, c :: cs =>
    if q.isPrefixOf (c :: cs) then
      r ++ replaceListAux q r fuel ((c :: cs).drop (max 1 q.length))
    else
      c :: replaceListAux q r fuel cs

/-- Python `s.replace(q, r)` (literal, as `pandas.Series.str.replace` with
`regex=False`, the pandas ≥ 2.0 default used by the source). -/
def pyReplace (q r s : String) : String :=
  String.mk (replaceListAux q.data r.data s.data.length s.data)

/-- Python `s.split(sep)` for a non-empty separator, helper on character
lists; `cur` accumulates the current field reversed, and the fuel starts at
the string's length as in `replaceListAux`. -/
def splitOnListAux (sep : List Char) (cur : List Char) : Nat → List Char → List (List Char)
  | 0, s => [(s.reverse ++ cur).reverse]
  | _ + 1, [] => [cur.reverse]
  | fuel + 1, c :: cs =>
    if sep.isPrefixOf (c :: cs) then
      cur.reverse :: splitOnListAux sep [] fuel ((c :: cs).drop (max 1 sep.length))
    else
      splitOnListAux sep (c :: cur) fuel cs

/-- Python `s.split(sep)` for a non-empty literal separator. -/
def pySplit (sep s : String) : List String :=
  (splitOnListAux sep.data [] s.data.length s.data).map String.mk

/-- Python `str.splitlines()` helper: splits on `\n`, `\r\n` and `\r`
(the rarer Unicode line boundaries are not modelled); no trailing empty
line for a terminal line break. -/
def splitlinesAux (cur : List Char) : List Char → List (List Char)
  | [] => [cur.reverse]
  | '\r' :: '\n' :: rest =>
    cur.reverse :: (if rest.isEmpty then [] else splitlinesAux [] rest)
  | '\r' :: rest =>
    cur.reverse :: (if rest.isEmpty then [] else splitlinesAux [] rest)
  | '\n' :: rest =>
    cur.reverse :: (if rest.isEmpty then [] else splitlinesAux [] rest)
  | c :: rest => splitlinesAux (c :: cur) rest

/-- Python `str.splitlines()` (for `\n` / `\r\n` / `\r` terminators). -/
def pySplitlines (s : String) : List String :=
  if s.data.isEmpty then [] else (splitlinesAux [] s.data).map String.mk

/-! ## Data model: one inventory row for the unit converters
(`basic_mapping.py`).  The converters read and write the columns `name`,
`unit` and `amount` only. -/

structure Row where
  name : String
  unit : String
  amount : ℚ
deriving DecidableEq

/-- `basic_mapping.check_and_convert_heat`: heat/heating/cooling rows in
kilowatt hours are rescaled to megajoules with the factor
`conversion_heat = 3.6`. -/
def check_and_convert_heat (row : Row) : Row :=
  if containsSub "heat" (pyLower row.name) || containsSub "heating" (pyLower row.name)
      || containsSub "cooling" (pyLower row.name) then
    if row.unit == "kilowatt hour" then
      { row with unit := "megajoule", amount := row.amount * (3.6 : ℚ) }
    else row
  else row

/-- The guard of `check_and_convert_heat`: substance keyword present and
unit convertible. -/
def heatGuard (row : Row) : Bool :=
  (containsSub "heat" (pyLower row.name) || containsSub "heating" (pyLower row.name)
    || containsSub "cooling" (pyLower row.name)) && row.unit == "kilowatt hour"

/-- `basic_mapping.check_and_convert_methanol`.  The density
`Chemical('methanol', T=293.15).rho` comes from the external `thermo`
library and is taken as the parameter `conversion_methanol`.  The
`milliliter` branch of the source reads the name `conversion_ethanol`,
which is not defined in that function's (or the module's) scope, so the
branch raises `NameError` at run time; it is modelled as `none`.  The
`liter` branch divides the amount by `1e3` and multiplies by the density. -/
def check_and_convert_methanol (conversion_methanol : ℚ) (row : Row) : Option Row :=
  if containsWholeWordCI "methanol" row.name then
    if row.unit == "milliliter" then
      none
    else if row.unit == "liter" then
      some { row with unit := "kilogram",
                      amount := row.amount / 1000 * conversion_methanol }
    else some row
  else some row

/-! ## Name Normalizer (`basic_mapping.map_common_names` and
`basic_mapping.ecoinvent_3_10_names`) -/

/-- The negative lookahead of the cooling rule: does
`Water, cooling, unspecified natural origin\b` (case-insensitively) occur in
the rest of the string?  In the regex the lookahead is `.*<pattern>\b`, and
`.` does not match a newline, so the occurrence must lie before the first
`\n` after the current position. -/
def coolingLookahead : List Char → Bool
  | [] => false
  | c :: cs =>
    if c = '\n' then false
    else
      (matchWordHere "water, cooling, unspecified natural origin".data (c :: cs))
        || coolingLookahead cs

/-- The seventh condition of `map_common_names`:
`#cooling(?!.*Water, cooling, unspecified natural origin\b)` with
`re.IGNORECASE` — some occurrence of `#cooling` not followed, on the same
line, by the natural-origin water pattern. -/
def coolingCondAux : List Char → Bool
  | [] => false
  | c :: cs =>
    (startsWithCI "#cooling".data (c :: cs)
        && !(coolingLookahead ((c :: cs).drop 8)))
      || coolingCondAux cs

/-- Whether the cooling rule of `map_common_names` fires on `name`. -/
def coolingCond (name : String) : Bool := coolingCondAux name.data

/-- The ordered (condition, choice) rules of `map_common_names`, exactly the
parallel `conditions` / `choices` lists the source passes to `np.select`. -/
def nameRules : List ((String → Bool) × String) :=
  [ (containsCI "#electricity",
     "market group for electricity, medium voltage"),
    (fun n => containsCI "process heat" n || containsCI "heating" n
        || containsCI "industrial heat" n,
     "market for heat, from steam, in chemical industry"),
    (containsCI "#natural gas",
     "market group for natural gas, high pressure"),
    (containsCI "waste water",
     "market for wastewater, average"),
    (containsCI "CO2, fossil",
     "Carbon dioxide, fossil"),
    (containsCI "CO2, biogenic",
     "Carbon dioxide, from soil or biomass stock"),
    (coolingCond,
     "market for cooling energy") ]

/-- `np.select(conditions, choices)` row semantics with the appended
always-true default: the first rule whose condition holds wins, otherwise
the value passes through. -/
def selectFirst (rules : List ((String → Bool) × String)) (name : String) : String :=
  match rules with
  | [] => name
  | (p, c) :: rest => if p name then c else selectFirst rest name

/-- `basic_mapping.map_common_names`, per name. -/
def map_common_names (name : String) : String := selectFirst nameRules name

/-- `basic_mapping.ecoinvent_3_10_names`, per name: the chain of literal
`str.replace` substitutions (the hexamethylenediamine clause only sets the
`ORIGIN` column and leaves the name unchanged). -/
def ecoinvent_3_10_names (name : String) : String :=
  pyReplace "market for acetic acid"
    "market for acetic acid, without water, in 98% solution state"
    (pyReplace "waste copper" "scrap copper"
      (pyReplace "waste aluminium" "scrap aluminium"
        (pyReplace "waste steel" "scrap steel" name)))

/-- The full two-pass Name Normalizer: the ordered pattern rules, then the
ecosystem-version substitutions. -/
def normalize_name (name : String) : String :=
  ecoinvent_3_10_names (map_common_names name)

/-! ## Exact fractions

Python floats are IEEE-754 doubles; the embedding models them as exact
fractions `num / den` of machine-unbounded integers, with `den > 0` for
every value the embedding constructs.  (Mathlib's `ℚ` is not used here
because its arithmetic is `@[irreducible]`, which blocks evaluation inside
`decide`.) -/

structure Frac where
  num : Int
  den : Int
deriving DecidableEq

def Frac.ofInt (n : Int) : Frac := ⟨n, 1⟩

def Frac.mul (x y : Frac) : Frac := ⟨x.num * y.num, x.den * y.den⟩

def Frac.add (x y : Frac) : Frac := ⟨x.num * y.den + y.num * x.den, x.den * y.den⟩

def Frac.sub (x y : Frac) : Frac := ⟨x.num * y.den - y.num * x.den, x.den * y.den⟩

def Frac.neg (x : Frac) : Frac := ⟨-x.num, x.den⟩

def Frac.abs (x : Frac) : Frac := ⟨|x.num|, |x.den|⟩

/-- `x ≤ y` for fractions with positive denominators. -/
def Frac.le (x y : Frac) : Bool := decide (x.num * y.den ≤ y.num * x.den)

/-! ## LLM classification pipeline (`llm_mapping.py`)

Only the deterministic response-processing tail of `prompt_LLM`
(lines 166-177) and `split_LLM_results` are embedded; the request
construction, configuration prompting and network call are external
effects outside the embedding (the spec's §1 places them out of scope). -/

/-- Digits-to-number accumulator (`int`/`float` digit parsing). -/
def digitsToNat (ds : List Char) : Nat :=
  ds.foldl (fun a c => a * 10 + (c.toNat - 48)) 0

/-- Python `int(s)` on a stripped string: optional sign, then decimal
digits.  Underscore digit grouping and non-ASCII digits are not modelled.
`none` models `ValueError`. -/
def pyToInt (s : String) : Option Int :=
  match s.data with
  | [] => none
  | c :: cs =>
    if c = '-' then
      if cs ≠ [] ∧ cs.all Char.isDigit then some (-(digitsToNat cs : Int)) else none
    else if c = '+' then
      if cs ≠ [] ∧ cs.all Char.isDigit then some (digitsToNat cs : Int) else none
    else
      if (c :: cs).all Char.isDigit then some (digitsToNat (c :: cs) : Int) else none

/-- Split a line at its first `.`: Python `line.split(".", 1)` guarded by
`"." in line` (`none` when there is no dot). -/
def splitFirstDot : List Char → Option (List Char × List Char)
  | [] => none
  | c :: cs =>
    if c = '.' then some ([], cs)
    else (splitFirstDot cs).map (fun p => (c :: p.1, p.2))

/-- One line of the LLM response body: `num, process = line.split(".", 1)`,
`idx = int(num.strip()) - 1`, `process.strip()`; `none` models the
`ValueError` the loop catches with `continue`. -/
def parseResponseLine (line : String) : Option (Int × String) :=
  match splitFirstDot line.data with
  | none => none
  | some (num, proc) =>
    match pyToInt (pyStrip (String.mk num)) with
    | some n => some (n - 1, pyStrip (String.mk proc))
    | none => none

/-- The `results` dict of `prompt_LLM`: parsed `(index, value)` records.
The records are accumulated in reverse so that `List.lookup` (first match)
returns the value of the *last* assignment, as a Python dict does.  The
response text is stripped first (line 158 of the source). -/
def buildResults (output_text : String) : List (Int × String) :=
  (pySplitlines (pyStrip output_text)).foldl
    (fun acc line =>
      match parseResponseLine line with
      | some r => r :: acc
      | none => acc) []

/-- The value `prompt_LLM` returns (line 176 of the source):
`[user_inputs[i] if results.get(i, "unknown").lower() == "unknown" else
results[i] for i in range(len(user_inputs))]`. -/
def prompt_LLM_parse (user_inputs : List String) (output_text : String) : List String :=
  (List.range user_inputs.length).map (fun i =>
    if pyLower (((buildResults output_text).lookup (Int.ofNat i)).getD "unknown") == "unknown"
    then user_inputs.getD i ""
    else ((buildResults output_text).lookup (Int.ofNat i)).getD "")

/-- Python `float(s)` on a decimal literal (optional sign, digits with an
optional point, optional exponent), as an exact fraction; `none` models
`ValueError`.  The IEEE specials `inf`/`nan` are not representable in the
fraction model and also parse to `none`; underscore digit grouping is not
modelled. -/
def pyFloatExpPart (t : List Char) : Option (Int × List Char) :=
  let sgnRest : Int × List Char :=
    match t with
    | '-' :: u => (-1, u)
    | '+' :: u => (1, u)
    | u => (1, u)
  let ds := sgnRest.2.takeWhile Char.isDigit
  let rest := sgnRest.2.dropWhile Char.isDigit
  if ds.isEmpty then none else some (sgnRest.1 * (digitsToNat ds : Int), rest)

/-- The fraction `sgn * 0.<intDs><fracDs> * 10 ^ e` scaled so that the
decimal point sits after `intDs`. -/
def fracOfParts (sgn : Int) (intDs fracDs : List Char) (e : Int) : Frac :=
  let m : Int := (digitsToNat (intDs ++ fracDs) : Nat)
  if 0 ≤ e then
    ⟨sgn * m * (10 : Int) ^ e.toNat, (10 : Int) ^ fracDs.length⟩
  else
    ⟨sgn * m, (10 : Int) ^ fracDs.length * (10 : Int) ^ (-e).toNat⟩

def pyFloat (s : String) : Option Frac :=
  let t := stripChars s.data
  let sgnRest : Int × List Char :=
    match t with
    | '-' :: u => (-1, u)
    | '+' :: u => (1, u)
    | u => (1, u)
  let intDs := sgnRest.2.takeWhile Char.isDigit
  let s2 := sgnRest.2.dropWhile Char.isDigit
  let fracRest : List Char × List Char :=
    match s2 with
    | '.' :: u => (u.takeWhile Char.isDigit, u.dropWhile Char.isDigit)
    | u => ([], u)
  let expRest : Option (Int × List Char) :=
    match fracRest.2 with
    | 'e' :: u => pyFloatExpPart u
    | 'E' :: u => pyFloatExpPart u
    | u => some (0, u)
  match expRest with
  | none => none
  | some (e, s4) =>
    if intDs.isEmpty && fracRest.1.isEmpty then none
    else if !s4.isEmpty then none
    else some (fracOfParts sgnRest.1 intDs fracRest.1 e)

/-- One structured record of `split_LLM_results`: columns `name`, `ORIGIN`,
`UNIT`, `QUANTITY`. -/
structure LLMRow where
  name : String
  ORIGIN : String
  UNIT : String
  QUANTITY : Frac
deriving DecidableEq

/-- The list comprehension of `split_LLM_results`:
`(str(r).strip().split(" | ") + [""] * 4)[:4]` for a record that is not
(case-insensitively) `"unknown"`, else `["unknown"] * 4`. -/
def splitLLMFields (r : String) : List String :=
  if pyLower (pyStrip r) ≠ "unknown" then
    (pySplit " | " (pyStrip r) ++ ["", "", "", ""]).take 4
  else ["unknown", "unknown", "unknown", "unknown"]

/-- The `QUANTITY` cell: `float(r[3]) if r[3].strip() not in ('', 'N/A',
None) else 0.0`.  `none` models the uncaught `ValueError` of `float`. -/
def parseQuantityField (f : String) : Option Frac :=
  if pyStrip f = "" ∨ pyStrip f = "N/A" then some ⟨0, 1⟩
  else pyFloat f

/-- `llm_mapping.split_LLM_results`.  The source builds the four columns
separately; only the `QUANTITY` comprehension can raise, so the whole
function is `none` exactly when some quantity field fails `float`. -/
def split_LLM_results (results : List String) : Option (List LLMRow) :=
  (results.map splitLLMFields).mapM (fun f =>
    (parseQuantityField (f.getD 3 "")).map (fun q =>
      ⟨f.getD 0 "", f.getD 1 "", f.getD 2 "", q⟩))

/-! ## Reconciler (`helper.compare_results`)

A DataFrame is a list of labelled columns; a column either has a numeric
dtype (cells `Option Frac`, `none` = NaN) or object dtype (cells
`Option String`, `none` = NaN/None).  Column labels are assumed unique, as
they are in the source's tables. -/

inductive ColData where
  | numCol (vals : List (Option Frac))
  | objCol (vals : List (Option String))
deriving DecidableEq

structure Table where
  cols : List (String × ColData)
deriving DecidableEq

/-- `pd.to_numeric(cell, errors="coerce")` on one object cell: parse, with
NaN for failures. -/
def toNumericCell (c : Option String) : Option Frac :=
  match c with
  | none => none
  | some s => pyFloat s

/-- `pd.to_numeric(column, errors="coerce")`: a numeric column is returned
unchanged, an object column is parsed cell-wise. -/
def toNumericCol : ColData → ColData
  | .numCol v => .numCol v
  | .objCol v => .numCol (v.map toNumericCell)

/-- Lines 73-74 of the source: `df["QUANTITY"] = pd.to_numeric(df["QUANTITY"],
errors="coerce")` — an in-place mutation of the caller's DataFrame.  Reading
a missing `QUANTITY` column raises `KeyError` (`none`). -/
def coerceQuantity (t : Table) : Option Table :=
  if t.cols.any (fun c => c.1 == "QUANTITY") then
    some ⟨t.cols.map (fun c => if c.1 == "QUANTITY" then (c.1, toNumericCol c.2) else c)⟩
  else none

/-- Line 84: `df.columns = df.columns.str.strip().str.lower()` — also an
in-place mutation of the caller's DataFrame. -/
def renameCols (t : Table) : Table :=
  ⟨t.cols.map (fun c => (pyLower (pyStrip c.1), c.2))⟩

/-- Lexicographic code-point order on strings (Python's `sorted` key order
for `str`), as an executable Bool. -/
def lexLe : List Char → List Char → Bool
  | [], _ => true
  | _ :: _, [] => false
  | a :: as, b :: bs => if a = b then lexLe as bs else decide (a < b)

def strLe (a b : String) : Bool := lexLe a.data b.data

/-- Stable insertion into a sorted list, by a Bool comparator. -/
def ordInsert (le : α → α → Bool) (x : α) : List α → List α
  | [] => [x]
  | y :: ys => if le x y then x :: y :: ys else y :: ordInsert le x ys

/-- Stable insertion sort, by a Bool comparator. -/
def insSort (le : α → α → Bool) : List α → List α
  | [] => []
  | x :: xs => ordInsert le x (insSort le xs)

/-- Lines 87-88: `reindex(sorted(df.columns), axis=1)` on a fresh copy —
a stable sort of the columns by label. -/
def sortCols (t : Table) : Table :=
  ⟨insSort (fun a b => strLe a.1 b.1) t.cols⟩

/-- A column pair unified for comparison: both numeric when either side has
a numeric dtype (lines 95-100), both string-normalized otherwise
(lines 102-106). -/
inductive PairCol where
  | numPair (a b : List (Option Frac))
  | strPair (a b : List String)
deriving DecidableEq

/-- `astype(str).str.strip().str.normalize('NFKC')` on one cell: NaN prints
as `"nan"`.  NFKC normalization is the parameter `nfkc` (identity on the
ASCII strings of this pipeline). -/
def strOfCell (nfkc : String → String) (c : Option String) : String :=
  match c with
  | none => nfkc (pyStrip "nan")
  | some s => nfkc (pyStrip s)

def pairUp (nfkc : String → String) (c1 c2 : ColData) : PairCol :=
  match c1, c2 with
  | .numCol a, .numCol b => .numPair a b
  | .numCol a, .objCol b => .numPair a (b.map toNumericCell)
  | .objCol a, .numCol b => .numPair (a.map toNumericCell) b
  | .objCol a, .objCol b =>
    .strPair (a.map (strOfCell nfkc)) (b.map (strOfCell nfkc))

/-- `np.round` to 5 decimals is round-half-to-even; the helper rounds a
fraction with positive denominator to the nearest integer, ties to even.
(The float rounding error of `Series.round` itself is outside the exact
model.) -/
def roundHalfEvenInt (x : Frac) : Int :=
  let f := x.num.ediv x.den
  let rem := x.num - f * x.den
  if 2 * rem < x.den then f
  else if x.den < 2 * rem then f + 1
  else if f % 2 = 0 then f else f + 1

/-- `Series.round(decimals=5)` on one cell. -/
def round5 (x : Frac) : Frac := ⟨roundHalfEvenInt (x.mul ⟨100000, 1⟩), 100000⟩

/-- Lines 109-111: numeric columns are rounded to 5 decimals on both sides
before comparison. -/
def roundPair : PairCol → PairCol
  | .numPair a b =>
    .numPair (a.map (Option.map round5)) (b.map (Option.map round5))
  | .strPair a b => .strPair a b

/-- `np.isclose(a, b, atol=float_tolerance, equal_nan=True)` on one cell
pair: NaN equals NaN, and otherwise `|a - b| ≤ atol + rtol * |b|` with
numpy's default `rtol = 1e-5`. -/
def npIsClose (atol : Frac) (a b : Option Frac) : Bool :=
  match a, b with
  | none, none => true
  | some x, some y => Frac.le (Frac.abs (x.sub y)) (atol.add (Frac.mul ⟨1, 100000⟩ (Frac.abs y)))
  | _, _ => false

/-- One cell comparison at row `j` (lines 122-126; after `astype(str)` no
NaN remains in a string column, so the `isna & isna` disjunct of the
non-numeric branch is vacuous and the comparison is plain equality). -/
def cellOKAt (atol : Frac) (p : PairCol) (j : Nat) : Bool :=
  match p with
  | .numPair a b => npIsClose atol (a.getD j none) (b.getD j none)
  | .strPair a b => (a.getD j "") == (b.getD j "")

/-- Lines 121-130: the row verdicts — a row is `Equal` when every column's
cell comparison holds. -/
def rowVerdicts (atol : Frac) (pairs : List PairCol) (n : Nat) : List String :=
  (List.range n).map (fun j =>
    if pairs.all (fun p => cellOKAt atol p j) then "Equal" else "Not Equal")

def colLength : ColData → Nat
  | .numCol v => v.length
  | .objCol v => v.length

/-- The number of rows of a table: pandas DataFrames are rectangular, so a
ragged column list (representable in this model, not in pandas) counts as
an error. -/
def tableRowCount (t : Table) : Option Nat :=
  match t.cols with
  | [] => some 0
  | c :: rest =>
    if rest.all (fun d => colLength d.2 == colLength c.2) then some (colLength c.2)
    else none

/-- `helper.compare_results`.  Returns `none` for the raising paths (missing
`QUANTITY`, mismatching column sets — the explicit `ValueError` of line 92 —
or mismatching row counts, on which the pandas comparisons raise); otherwise
`some (m1, m2, verdicts)` where `m1`/`m2` are the caller's tables after the
in-place mutations (`QUANTITY` coercion and column renaming; the
`df.replace` loop of lines 77-78 rebinds a local name and has no effect).
The per-row verdict series is the return value of the source. -/
def compare_results (nfkc : String → String) (float_tolerance : Frac) (df1 df2 : Table) :
    Option (Table × Table × List String) :=
  match coerceQuantity df1, coerceQuantity df2 with
  | some c1, some c2 =>
    let m1 := renameCols c1
    let m2 := renameCols c2
    let s1 := sortCols m1
    let s2 := sortCols m2
    if s1.cols.map Prod.fst = s2.cols.map Prod.fst then
      match tableRowCount s1, tableRowCount s2 with
      | some n1, some n2 =>
        if n1 = n2 then
          some (m1, m2,
            rowVerdicts float_tolerance
              ((s1.cols.zip s2.cols).map (fun cc => roundPair (pairUp nfkc cc.1.2 cc.2.2)))
              n1)
        else none
      | _, _ => none
    else none
  | _, _ => none

/-! ## By-product consolidation and type classification
(`processing.process_dataframe`, `basic_mapping.set_type`)

A process sheet is a list of index-labelled rows (pandas keeps row labels
when rows are dropped; labels are unique in a freshly read sheet).  Only
the columns the two functions read are modelled. -/

structure SheetRow where
  unnamed1 : String     -- the marker column named literally 'Unnamed: 1'
  flowName : String     -- 'FLOW NAME'
  description : String  -- 'DESCRIPTION'
  quantity : ℚ          -- 'QUANTITY'
  categories : String   -- 'categories'
deriving DecidableEq

/-- `(df['DESCRIPTION'] == 'no avoided burden').any()` on the current rows. -/
def hasNoAvoidedBurden (cur : List (Nat × SheetRow)) : Bool :=
  cur.any (fun r => r.2.description == "no avoided burden")

/-- `df = df[df['DESCRIPTION'] != "no avoided burden"]`. -/
def dropNoAvoidedBurden (cur : List (Nat × SheetRow)) : List (Nat × SheetRow) :=
  cur.filter (fun r => r.2.description != "no avoided burden")

/-- The in-place by-product conversion, on one row: the pair of `.at`
writes `df.at[index, 'Unnamed: 1'] = 'INPUTS'` and
`df.at[index, 'QUANTITY'] *= -1`. -/
def convertRow (r : SheetRow) : SheetRow :=
  { r with unnamed1 := "INPUTS", quantity := -r.quantity }

/-- Convert a row exactly when its index is in `toConvert` (specification
device for `process_dataframe`'s net effect on a sheet). -/
def convMark (toConvert : List Nat) (r : Nat × SheetRow) : Nat × SheetRow :=
  if toConvert.contains r.1 then (r.1, convertRow r.2) else r

/-- The indices of the `PRODUCTS`-marked rows of a sheet. -/
def prodIdxs (l : List (Nat × SheetRow)) : List Nat :=
  (l.filter (fun p => p.2.unnamed1 == "PRODUCTS")).map Prod.fst

/-- The by-product conversion applied at one row label.  Writing to a label
no longer present would enlarge the frame with a NaN row in pandas; that
row is not representable in the typed model and the write is treated as a
failure (`none`) — no theorem below exercises it. -/
def updateAt (cur : List (Nat × SheetRow)) (idx : Nat) : Option (List (Nat × SheetRow)) :=
  if cur.any (fun r => r.1 == idx) then
    some (cur.map (fun r => if r.1 == idx then (r.1, convertRow r.2) else r))
  else none

/-- The loop body of `process_dataframe`: `orig` is what remains of the
iterator (`df.iterrows()` runs over the *original* frame), `cur` the current
frame, `plist` the product list and `cnt` the `products_count` so far.
Reading `df.at[index, 'FLOW NAME']` of a dropped label raises `KeyError`
(`none`). -/
def processRowsGo (cur : List (Nat × SheetRow)) (plist : List String) (cnt : Nat) :
    List (Nat × SheetRow) → Option (List (Nat × SheetRow) × List String)
  | [] => some (cur, plist)
  | (idx, row) :: rest =>
    if row.unnamed1 == "PRODUCTS" then
      if cnt + 1 > 1 then
        match (if !hasNoAvoidedBurden cur then updateAt cur idx else some cur) with
        | none => none
        | some cur1 =>
          let cur2 := dropNoAvoidedBurden cur1
          match cur2.lookup idx with
          | some r => processRowsGo cur2 (plist ++ [r.flowName]) (cnt + 1) rest
          | none => none
      else
        match cur.lookup idx with
        | some r => processRowsGo cur (plist ++ [r.flowName]) (cnt + 1) rest
        | none => none
    else processRowsGo cur plist cnt rest

/-- `processing.process_dataframe`: consolidate by-products and extend the
product list. -/
def process_dataframe (rows : List (Nat × SheetRow)) (product_list : List String) :
    Option (List (Nat × SheetRow) × List String) :=
  processRowsGo rows product_list 0 rows

/-- `basic_mapping.set_type`, per row: `np.select` with the `PRODUCTS`
marker test (`str.contains('PRODUCTS', case=False)`) first, the
environmental-compartment test on `categories` (case-sensitive regex
`(?:water|air|natural|soil)`) second, and default `'technosphere'`. -/
def set_type_row (r : SheetRow) : String :=
  if containsCI "PRODUCTS" r.unnamed1 then "production"
  else if containsSub "water" r.categories || containsSub "air" r.categories
      || containsSub "natural" r.categories || containsSub "soil" r.categories then
    "biosphere"
  else "technosphere"

/-! ## Sheet Merger (`processing.merge_sheets`)

A merged-output table is a list of column labels and a list of rows (cells
of an arbitrary type `α`); the merge only slices and concatenates rows, and
`description_to_bw_input_sheet` truncates each template block with
`iloc[:15]` before the merge sees it. -/

structure MTable (α : Type) where
  cols : List String
  rows : List (List α)
deriving DecidableEq

/-- `name_position = columns.get_loc('name')` followed by
`iloc[:, name_position:]`: keep the columns from `name` onward (`none`
models the `KeyError` of a missing `name` column). -/
def sliceFromName {α : Type} (t : MTable α) : Option (MTable α) :=
  match t.cols.findIdx? (fun c => c == "name") with
  | none => none
  | some p => some ⟨t.cols.drop p, t.rows.map (fun r => r.drop p)⟩

/-- The loop of `merge_sheets` after the first sheet: each later sheet
appends its template rows from offset 3 on (`iloc[3:, :]`) and then its
selected data rows. -/
def mergeGo {α : Type} (acc : MTable α) : List (MTable α × MTable α) → Option (MTable α)
  | [] => some acc
  | (bw, lci) :: rest =>
    match sliceFromName lci with
    | none => none
    | some l => mergeGo ⟨acc.cols, acc.rows ++ bw.rows.drop 3 ++ l.rows⟩ rest

/-- `processing.merge_sheets` over the sheets in `sheet_names` order, each
sheet as its `(bw_example_sheets[name], LCI_sheet[name])` pair.  The first
sheet contributes its full template block and its selected data rows; the
Python function returns `None` for an empty sheet list. -/
def merge_sheets {α : Type} : List (MTable α × MTable α) → Option (MTable α)
  | [] => none
  | (bw0, lci0) :: rest =>
    match sliceFromName lci0 with
    | none => none
    | some l0 => mergeGo ⟨bw0.cols, bw0.rows ++ l0.rows⟩ rest

/-! ## Helper lemmas -/

theorem selectFirst_eq_of_first_match (rules : List ((String → Bool) × String))
    (name : String) :
    ∀ (i : Nat) (hi : i < rules.length),
      (rules.get ⟨i, hi⟩).1 name = true →
      (∀ k (hk : k < i), (rules.get ⟨k, Nat.lt_trans hk hi⟩).1 name = false) →
      selectFirst rules name = (rules.get ⟨i, hi⟩).2 := by
  induction rules with
  | nil => intro i hi; exact absurd hi (by simp)
  | cons r rest ih =>
    intro i hi hp hmin
    cases i with
    | zero =>
      simp only [List.get] at hp ⊢
      simp only [selectFirst, hp, if_true]
    | succ k =>
      have h0 : r.1 name = false := hmin 0 (Nat.succ_pos k)
      simp only [List.get] at hp ⊢
      simp only [selectFirst, h0, Bool.false_eq_true, if_false]
      exact ih k (Nat.lt_of_succ_lt_succ hi) hp
        (fun m hm => hmin (m + 1) (Nat.succ_lt_succ hm))

theorem selectFirst_eq_of_no_match (rules : List ((String → Bool) × String))
    (name : String)
    (h : ∀ k (hk : k < rules.length), (rules.get ⟨k, hk⟩).1 name = false) :
    selectFirst rules name = name := by
  induction rules with
  | nil => rfl
  | cons r rest ih =>
    have h0 : r.1 name = false := h 0 (Nat.succ_pos _)
    simp only [selectFirst, h0, Bool.false_eq_true, if_false]
    exact ih (fun k hk => h (k + 1) (Nat.succ_lt_succ hk))

/-- Applying `map_common_names` a second time changes nothing: each of the
seven canonical outputs matches none of the seven conditions, and a
passthrough name matches none by assumption. -/
theorem map_common_names_idem (x : String) :
    map_common_names (map_common_names x) = map_common_names x := by
  by_cases h1 : containsCI "#electricity" x = true
  · have hx : map_common_names x = "market group for electricity, medium voltage" := by
      simp [map_common_names, nameRules, selectFirst, h1]
    rw [hx]; decide
  by_cases h2 : (containsCI "process heat" x || containsCI "heating" x
      || containsCI "industrial heat" x) = true
  · have hx : map_common_names x = "market for heat, from steam, in chemical industry" := by
      simp [map_common_names, nameRules, selectFirst, h1, h2]
    rw [hx]; decide
  by_cases h3 : containsCI "#natural gas" x = true
  · have hx : map_common_names x = "market group for natural gas, high pressure" := by
      simp [map_common_names, nameRules, selectFirst, h1, h2, h3]
    rw [hx]; decide
  by_cases h4 : containsCI "waste water" x = true
  · have hx : map_common_names x = "market for wastewater, average" := by
      simp [map_common_names, nameRules, selectFirst, h1, h2, h3, h4]
    rw [hx]; decide
  by_cases h5 : containsCI "CO2, fossil" x = true
  · have hx : map_common_names x = "Carbon dioxide, fossil" := by
      simp [map_common_names, nameRules, selectFirst, h1, h2, h3, h4, h5]
    rw [hx]; decide
  by_cases h6 : containsCI "CO2, biogenic" x = true
  · have hx : map_common_names x = "Carbon dioxide, from soil or biomass stock" := by
      simp [map_common_names, nameRules, selectFirst, h1, h2, h3, h4, h5, h6]
    rw [hx]; decide
  by_cases h7 : coolingCond x = true
  · have hx : map_common_names x = "market for cooling energy" := by
      simp [map_common_names, nameRules, selectFirst, h1, h2, h3, h4, h5, h6, h7]
    rw [hx]; decide
  · have hx : map_common_names x = x := by
      simp [map_common_names, nameRules, selectFirst, h1, h2, h3, h4, h5, h6, h7]
    rw [hx, hx]

theorem sliceFromName_rows_length {α : Type} (t l : MTable α)
    (h : sliceFromName t = some l) : l.rows.length = t.rows.length := by
  unfold sliceFromName at h
  cases hf : t.cols.findIdx? (fun c => c == "name") with
  | none => rw [hf] at h; exact absurd h (by simp)
  | some p =>
    rw [hf] at h
    cases h
    simp

theorem mergeGo_length {α : Type} (sheets : List (MTable α × MTable α)) :
    ∀ (acc t : MTable α), mergeGo acc sheets = some t →
      t.rows.length = acc.rows.length +
        (sheets.map (fun s => (s.1.rows.length - 3) + s.2.rows.length)).sum := by
  induction sheets with
  | nil =>
    intro acc t h
    simp only [mergeGo] at h
    cases h
    simp
  | cons s rest ih =>
    intro acc t h
    obtain ⟨bw, lci⟩ := s
    simp only [mergeGo] at h
    cases hs : sliceFromName lci with
    | none => rw [hs] at h; exact absurd h (by simp)
    | some l =>
      rw [hs] at h
      have hrec := ih _ _ h
      have hl : l.rows.length = lci.rows.length := sliceFromName_rows_length _ _ hs
      simp only [List.map_cons, List.sum_cons]
      simp only [List.length_append, List.length_drop] at hrec
      omega

/-! ## Claim theorems -/

/-- Claim C8: a row whose name contains "heat", "heating" or "cooling"
(case-insensitively) and whose unit is "kilowatt hour" gets unit
"megajoule" and its amount multiplied by exactly 3.6; any other row passes
through `check_and_convert_heat` unchanged. -/
theorem C8_heat_conversion (row : Row) :
    (heatGuard row = true →
      check_and_convert_heat row =
        { row with unit := "megajoule", amount := row.amount * (3.6 : ℚ) }) ∧
    (heatGuard row = false → check_and_convert_heat row = row) := by
  constructor
  · intro h
    rw [heatGuard, Bool.and_eq_true] at h
    rw [check_and_convert_heat, if_pos h.1, if_pos h.2]
  · intro h
    rw [heatGuard, Bool.and_eq_false_iff] at h
    rcases h with h | h
    · rw [check_and_convert_heat, if_neg (by simp [h])]
    · rw [check_and_convert_heat]
      by_cases hc : (containsSub "heat" (pyLower row.name)
          || containsSub "heating" (pyLower row.name)
          || containsSub "cooling" (pyLower row.name)) = true
      · rw [if_pos hc, if_neg (by simp [h])]
      · rw [if_neg (by simp at hc ⊢; exact hc)]

/-- Claim C8 witness: name "heat, district", unit "kilowatt hour",
amount 10 becomes unit "megajoule", amount 36. -/
theorem C8_heat_conversion_witness :
    check_and_convert_heat ⟨"heat, district", "kilowatt hour", 10⟩ =
      ⟨"heat, district", "megajoule", 36⟩ := by
  have h := (C8_heat_conversion ⟨"heat, district", "kilowatt hour", 10⟩).1 (by decide)
  rw [h]
  simp only [Row.mk.injEq]
  norm_num

/-- Claim C3 (code bug): for a methanol row in milliliters the source
raises `NameError` — its milliliter branch multiplies by
`conversion_ethanol`, a name not defined in `check_and_convert_methanol`'s
scope (nor in the module) — instead of converting with methanol's density
as the function's own docstring and print statement say.  The embedding
returns `none` there, for every density value. -/
theorem C3_methanol_milliliter_raises (conversion_methanol : ℚ) :
    check_and_convert_methanol conversion_methanol ⟨"methanol, 99%", "milliliter", 1⟩ =
      none := rfl

/-- Claim C2 (code bug): `split_LLM_results` computes `float(r[3])` for
every record whose stripped-lowercase form is not "unknown" *and* for the
`["unknown"] * 4` sentinel itself, whose fourth field is the string
"unknown"; `float("unknown")` (and `float` of any unparsable quantity)
raises `ValueError`, so the function raises instead of producing the
sentinel/0.0 defaults the spec describes.  A well-formed record still
parses. -/
theorem C2_split_LLM_results_raises :
    split_LLM_results ["unknown"] = none ∧
    split_LLM_results ["a | RER | kilogram | notanumber"] = none ∧
    split_LLM_results ["b | GLO | kilogram | 2.5"] =
      some [⟨"b", "GLO", "kilogram", ⟨25, 10⟩⟩] := by decide

/-- Claim C1: the list `prompt_LLM` builds from the response text always
has exactly the length of `user_inputs`, and every position whose parsed
record is missing (parse failure) or equals "unknown" case-insensitively —
i.e. `results.get(i, "unknown").lower() == "unknown"` — holds the original
input line unchanged. -/
theorem C1_prompt_LLM_length_and_fallback (user_inputs : List String) (output_text : String) :
    (prompt_LLM_parse user_inputs output_text).length = user_inputs.length ∧
    ∀ i : Nat, i < user_inputs.length →
      pyLower (((buildResults output_text).lookup (Int.ofNat i)).getD "unknown") = "unknown" →
      (prompt_LLM_parse user_inputs output_text).getD i "" = user_inputs.getD i "" := by
  constructor
  · simp [prompt_LLM_parse]
  · intro i hi hu
    have hlen : i < (prompt_LLM_parse user_inputs output_text).length := by
      simpa [prompt_LLM_parse] using hi
    rw [List.getD_eq_getElem _ _ hlen]
    simp only [prompt_LLM_parse]
    rw [List.getElem_map, List.getElem_range]
    rw [hu]
    simp

/-- Claim C1 witness: response "1. mapped | RER | kilogram | 1" then
"3. unknown" for three inputs — position 2 (0-based) falls back to the
original input line. -/
theorem C1_prompt_LLM_witness :
    (prompt_LLM_parse ["a | x", "b | y", "c | z"]
        "1. mapped | RER | kilogram | 1\n3. unknown").getD 2 "" = "c | z" :=
  (C1_prompt_LLM_length_and_fallback ["a | x", "b | y", "c | z"]
      "1. mapped | RER | kilogram | 1\n3. unknown").2 2 (by decide) (by decide)

/-- Claim C9 counterexample: two sheets with equal template sizes (4 rows)
and one data row each merge to 4 + 1 + (4 - 3) + 1 = 7 rows, not the
5 + 1 = 6 rows of the claim's template-plus-data + data-only formula:
later sheets keep their template rows from offset 3 on. -/
theorem C9_merge_sheets_counterexample :
    (merge_sheets [(⟨["name"], [[1], [2], [3], [4]]⟩, ⟨["name"], [[5]]⟩),
        (⟨["name"], [[6], [7], [8], [9]]⟩, (⟨["name"], [[10]]⟩ : MTable Nat))]).map
      (fun t => t.rows.length) = some 7 ∧ 7 ≠ (4 + 1) + 1 := by decide

/-- Claim C9 (amended): the first sheet contributes its full template block
plus its selected data rows; every later sheet contributes its template
rows from offset 3 on plus its data rows, so the merged row count is
`(T₁ + d₁) + Σᵢ ((Tᵢ - 3) + dᵢ)`. -/
theorem C9_merge_sheets_row_count {α : Type} (hd : MTable α × MTable α)
    (rest : List (MTable α × MTable α)) (t : MTable α)
    (h : merge_sheets (hd :: rest) = some t) :
    t.rows.length =
      (hd.1.rows.length + hd.2.rows.length) +
        (rest.map (fun s => (s.1.rows.length - 3) + s.2.rows.length)).sum := by
  obtain ⟨bw0, lci0⟩ := hd
  simp only [merge_sheets] at h
  cases hs : sliceFromName lci0 with
  | none => rw [hs] at h; exact absurd h (by simp)
  | some l0 =>
    rw [hs] at h
    have hrec := mergeGo_length rest _ _ h
    have hl : l0.rows.length = lci0.rows.length := sliceFromName_rows_length _ _ hs
    simp only [List.length_append] at hrec
    dsimp only
    omega

/-- Claim C9 witness: the amended row-count formula at the two concrete
sheets of the counterexample — 7 = (4 + 1) + ((4 - 3) + 1). -/
theorem C9_merge_sheets_row_count_witness :
    (MTable.rows (⟨["name"], [[1], [2], [3], [4], [5], [9], [10]]⟩ : MTable Nat)).length =
      ((4 : Nat) + 1) + (((4 : Nat) - 3) + 1) :=
  C9_merge_sheets_row_count
    (⟨["name"], [[1], [2], [3], [4]]⟩, ⟨["name"], [[5]]⟩)
    [(⟨["name"], [[6], [7], [8], [9]]⟩, ⟨["name"], [[10]]⟩)]
    ⟨["name"], [[1], [2], [3], [4], [5], [9], [10]]⟩ (by decide)

/-- Claim C7: name-rule dispatch is first-match-wins in list order — if a
name satisfies the conditions of rules `i < j` and no rule before `i`, the
result is rule `i`'s canonical name and never rule `j`'s (all seven
canonical names are pairwise distinct); and a name matching no rule passes
through unchanged. -/
theorem C7_first_match_wins (name : String) :
    (∀ (i j : Nat) (hi : i < nameRules.length) (hj : j < nameRules.length), i < j →
      (nameRules.get ⟨i, hi⟩).1 name = true →
      (nameRules.get ⟨j, hj⟩).1 name = true →
      (∀ k (hk : k < i), (nameRules.get ⟨k, Nat.lt_trans hk hi⟩).1 name = false) →
      map_common_names name = (nameRules.get ⟨i, hi⟩).2 ∧
        map_common_names name ≠ (nameRules.get ⟨j, hj⟩).2) ∧
    ((∀ k (hk : k < nameRules.length), (nameRules.get ⟨k, hk⟩).1 name = false) →
      map_common_names name = name) := by
  constructor
  · intro i j hi hj hij hpi _ hmin
    have h1 : map_common_names name = (nameRules.get ⟨i, hi⟩).2 :=
      selectFirst_eq_of_first_match nameRules name i hi hpi hmin
    refine ⟨h1, ?_⟩
    rw [h1]
    have hp : List.Pairwise (· ≠ ·) (nameRules.map Prod.snd) := by decide
    rw [List.pairwise_iff_get] at hp
    have hd := hp ⟨i, by simpa using hi⟩ ⟨j, by simpa using hj⟩ hij
    simpa using hd
  · intro hnone
    exact selectFirst_eq_of_no_match nameRules name hnone

/-- Claim C7 witness: "#electricity from #natural gas" matches both the
electricity rule (index 0) and the natural-gas rule (index 2); the
electricity rule is earlier, so its canonical name wins. -/
theorem C7_first_match_wins_witness :
    map_common_names "#electricity from #natural gas" =
      "market group for electricity, medium voltage" :=
  ((C7_first_match_wins "#electricity from #natural gas").1 0 2
    (by decide) (by decide) (by decide) (by decide) (by decide)
    (fun k hk => absurd hk (Nat.not_lt_zero k))).1

/-- Claim C4 counterexample: the two-pass Name Normalizer is not
idempotent — the ecosystem-version pass rewrites "market for acetic acid"
to "market for acetic acid, without water, in 98% solution state", and a
second application finds the pattern again and appends the qualifier a
second time. -/
theorem C4_normalizer_not_idempotent :
    normalize_name (normalize_name "market for acetic acid") ≠
      normalize_name "market for acetic acid" := by decide

/-- Claim C4 (amended): the Name Normalizer is idempotent on every input on
which the ecosystem-version substitution pass leaves the once-normalized
name unchanged (the pattern-rule pass alone is always idempotent); on names
it rewrites — those containing "market for acetic acid" — a second
application can change the name again. -/
theorem C4_normalizer_conditionally_idempotent (name : String)
    (h : ecoinvent_3_10_names (map_common_names name) = map_common_names name) :
    normalize_name (normalize_name name) = normalize_name name := by
  have hinner : normalize_name name = map_common_names name := by
    rw [normalize_name]; exact h
  calc normalize_name (normalize_name name)
      = normalize_name (map_common_names name) := by rw [hinner]
    _ = ecoinvent_3_10_names (map_common_names (map_common_names name)) := rfl
    _ = ecoinvent_3_10_names (map_common_names name) := by rw [map_common_names_idem]
    _ = map_common_names name := h
    _ = normalize_name name := hinner.symm

/-- Claim C4 witness: on "Xyz #electricity, local grid" the second pass
fixes the once-normalized name, and normalizing twice equals normalizing
once. -/
theorem C4_normalizer_conditionally_idempotent_witness :
    normalize_name (normalize_name "Xyz #electricity, local grid") =
      normalize_name "Xyz #electricity, local grid" :=
  C4_normalizer_conditionally_idempotent "Xyz #electricity, local grid" (by decide)

/-- Claim C10: `compare_results` is not pure in its table arguments — on
every successful call the caller's first table has been mutated in place
(its `QUANTITY` column coerced to numeric with NaN for non-numeric cells,
lines 73-74, and its labels renamed, line 84), and there are inputs on
which the caller's table observably differs afterwards. -/
theorem C10_compare_results_mutates :
    (∀ (nfkc : String → String) (atol : Frac) (df1 df2 : Table)
        (out : Table × Table × List String),
      compare_results nfkc atol df1 df2 = some out →
      ∃ c1, coerceQuantity df1 = some c1 ∧ out.1 = renameCols c1) ∧
    (∃ (df1 df2 : Table) (out : Table × Table × List String),
      compare_results id ⟨1, 100000000⟩ df1 df2 = some out ∧ out.1 ≠ df1) := by
  constructor
  · intro nfkc atol df1 df2 out h
    rw [compare_results] at h
    cases hc1 : coerceQuantity df1 with
    | none => rw [hc1] at h; exact absurd h (by simp)
    | some c1 =>
      rw [hc1] at h
      cases hc2 : coerceQuantity df2 with
      | none => rw [hc2] at h; exact absurd h (by simp)
      | some c2 =>
        rw [hc2] at h
        refine ⟨c1, rfl, ?_⟩
        simp only at h
        split at h
        · split at h
          · split at h
            · cases h; rfl
            · exact absurd h (by simp)
          · exact absurd h (by simp)
        · exact absurd h (by simp)
  · refine ⟨⟨[("QUANTITY", .objCol [some "abc"])]⟩, ⟨[("QUANTITY", .objCol [some "abc"])]⟩,
      (⟨[("quantity", .numCol [none])]⟩, ⟨[("quantity", .numCol [none])]⟩, ["Equal"]),
      by decide, by decide⟩


/-! ### Lemmas for the by-product consolidation -/

theorem map_id_of_pointwise {α : Type} (f : α → α) (l : List α)
    (h : ∀ x, f x = x) : l.map f = l := by
  induction l with
  | nil => rfl
  | cons a t ih => simp [h a, ih]

theorem lookup_isSome_of_exists {β : Type} (l : List (Nat × β)) (i : Nat)
    (h : ∃ r ∈ l, r.1 = i) : ∃ v, l.lookup i = some v := by
  induction l with
  | nil => obtain ⟨r, hr, _⟩ := h; exact absurd hr (List.not_mem_nil r)
  | cons a t ih =>
    by_cases ha : a.1 = i
    · exact ⟨a.2, by simp [List.lookup, ha]⟩
    · obtain ⟨r, hr, hk⟩ := h
      rcases List.mem_cons.mp hr with rfl | hrt
      · exact absurd hk ha
      · obtain ⟨v, hv⟩ := ih ⟨r, hrt, hk⟩
        refine ⟨v, ?_⟩
        have hne : (i == a.1) = false := by
          simp only [beq_eq_false_iff_ne, ne_eq]
          exact fun hia => ha hia.symm
        simp [List.lookup, hne, hv]

/-- The no-avoided-burden segment lemma: once `products_count` is at least
one and no row carries the "no avoided burden" marker, the loop converts in
place every `PRODUCTS` row of the remaining iteration and drops nothing. -/
theorem processRowsGo_converts (orig : List (Nat × SheetRow)) :
    ∀ (cur : List (Nat × SheetRow)) (plist : List String) (cnt : Nat), 1 ≤ cnt →
      (∀ r ∈ cur, r.2.description ≠ "no avoided burden") →
      (∀ i ∈ prodIdxs orig, ∃ r ∈ cur, r.1 = i) →
      (prodIdxs orig).Nodup →
      ∃ plist2, processRowsGo cur plist cnt orig =
        some (cur.map (convMark (prodIdxs orig)), plist2) := by
  induction orig with
  | nil =>
    intro cur plist cnt _ _ _ _
    refine ⟨plist, ?_⟩
    have hconv : ∀ r : Nat × SheetRow, convMark (prodIdxs []) r = r := by
      intro r; simp [convMark, prodIdxs]
    simp [processRowsGo, map_id_of_pointwise _ _ hconv]
  | cons hd rest ih =>
    intro cur plist cnt hcnt hna hpres hnodup
    obtain ⟨idx, row⟩ := hd
    by_cases hrow : row.unnamed1 = "PRODUCTS"
    · have hpi : prodIdxs ((idx, row) :: rest) = idx :: prodIdxs rest := by
        simp [prodIdxs, hrow]
      rw [hpi] at hpres hnodup
      have hnotin : idx ∉ prodIdxs rest := (List.nodup_cons.mp hnodup).1
      have hnoav : hasNoAvoidedBurden cur = false := by
        rw [hasNoAvoidedBurden, List.any_eq_false]
        intro r hr
        simpa using hna r hr
      have hany : cur.any (fun r => r.1 == idx) = true := by
        obtain ⟨r, hrmem, hrkey⟩ := hpres idx (List.mem_cons_self _ _)
        rw [List.any_eq_true]
        exact ⟨r, hrmem, by simp [hrkey]⟩
      have hup : updateAt cur idx =
          some (cur.map (fun r => if r.1 == idx then (r.1, convertRow r.2) else r)) := by
        rw [updateAt, if_pos hany]
      set f : Nat × SheetRow → Nat × SheetRow :=
        fun r => if r.1 == idx then (r.1, convertRow r.2) else r with hf
      have hfdesc : ∀ r : Nat × SheetRow, (f r).2.description = r.2.description := by
        intro r
        rw [hf]
        by_cases hk : (r.1 == idx) = true
        · simp [hk, convertRow]
        · simp [hk]
      have hfkey : ∀ r : Nat × SheetRow, (f r).1 = r.1 := by
        intro r
        rw [hf]
        by_cases hk : (r.1 == idx) = true
        · simp [hk]
        · simp [hk]
      have hna1 : ∀ r ∈ cur.map f, r.2.description ≠ "no avoided burden" := by
        intro r hr
        obtain ⟨r0, hr0, rfl⟩ := List.mem_map.mp hr
        rw [hfdesc r0]
        exact hna r0 hr0
      have hdrop : dropNoAvoidedBurden (cur.map f) = cur.map f := by
        rw [dropNoAvoidedBurden, List.filter_eq_self]
        intro r hr
        simpa using hna1 r hr
      have hlk : ∃ v, (cur.map f).lookup idx = some v := by
        apply lookup_isSome_of_exists
        obtain ⟨r, hrmem, hrkey⟩ := hpres idx (List.mem_cons_self _ _)
        exact ⟨f r, List.mem_map_of_mem f hrmem, by rw [hfkey r, hrkey]⟩
      obtain ⟨v, hv⟩ := hlk
      obtain ⟨plist2, hrec⟩ := ih (cur.map f) (plist ++ [v.flowName]) (cnt + 1)
        (by omega) hna1
        (by
          intro i hi
          obtain ⟨r, hrmem, hrkey⟩ := hpres i (List.mem_cons_of_mem _ hi)
          exact ⟨f r, List.mem_map_of_mem f hrmem, by rw [hfkey r, hrkey]⟩)
        (List.nodup_cons.mp hnodup).2
      refine ⟨plist2, ?_⟩
      have hstep : processRowsGo cur plist cnt ((idx, row) :: rest) =
          processRowsGo (cur.map f) (plist ++ [v.flowName]) (cnt + 1) rest := by
        simp only [processRowsGo]
        rw [if_pos (by simp [hrow]), if_pos (by omega : cnt + 1 > 1)]
        rw [hnoav]
        simp only [Bool.not_false, if_true, hup]
        rw [hdrop, hv]
      rw [hstep, hrec, hpi]
      have hmaps : (cur.map f).map (convMark (prodIdxs rest)) =
          cur.map (convMark (idx :: prodIdxs rest)) := by
        rw [List.map_map]
        apply List.map_congr_left
        intro r _
        show convMark (prodIdxs rest) (f r) = convMark (idx :: prodIdxs rest) r
        by_cases hk : r.1 = idx
        · have hfr : f r = (r.1, convertRow r.2) := by rw [hf]; simp [hk]
          have hnr : r.1 ∉ prodIdxs rest := by rw [hk]; exact hnotin
          rw [hfr]
          simp only [convMark]
          rw [if_neg (by simpa using hnr), if_pos (by simpa using Or.inl hk :
            ((idx :: prodIdxs rest).contains r.1) = true)]
        · have hfr : f r = r := by rw [hf]; simp [hk]
          have h1 : (r.1 == idx) = false := by simp [hk]
          have h2 : (idx :: prodIdxs rest).contains r.1 =
              (prodIdxs rest).contains r.1 := by
            rw [List.contains_cons, h1, Bool.false_or]
          rw [hfr]
          simp only [convMark, h2]
      rw [hmaps]
    · have hpi : prodIdxs ((idx, row) :: rest) = prodIdxs rest := by
        simp [prodIdxs, hrow]
      rw [hpi] at hpres hnodup ⊢
      have hstep : processRowsGo cur plist cnt ((idx, row) :: rest) =
          processRowsGo cur plist cnt rest := by
        simp only [processRowsGo]
        rw [if_neg (by simp [hrow])]
      rw [hstep]
      exact ih cur plist cnt hcnt hna hpres hnodup

theorem processRowsGo_skip (pre : List (Nat × SheetRow)) :
    ∀ (cur : List (Nat × SheetRow)) (plist : List String) (cnt : Nat)
      (rest2 : List (Nat × SheetRow)),
      (∀ r ∈ pre, r.2.unnamed1 ≠ "PRODUCTS") →
      processRowsGo cur plist cnt (pre ++ rest2) = processRowsGo cur plist cnt rest2 := by
  induction pre with
  | nil => intro cur plist cnt rest2 _; rfl
  | cons a t ih =>
    intro cur plist cnt rest2 hpre
    obtain ⟨i, r⟩ := a
    have hne : r.unnamed1 ≠ "PRODUCTS" := hpre (i, r) (List.mem_cons_self _ _)
    rw [List.cons_append]
    have hstep : processRowsGo cur plist cnt ((i, r) :: (t ++ rest2)) =
        processRowsGo cur plist cnt (t ++ rest2) := by
      simp only [processRowsGo]
      rw [if_neg (by simp [hne])]
    rw [hstep]
    exact ih cur plist cnt rest2 (fun x hx => hpre x (List.mem_cons_of_mem _ hx))

/-- The net effect of `process_dataframe` on a sheet whose first `PRODUCTS`
row follows a products-free prefix and which carries no "no avoided burden"
marker: every later `PRODUCTS` row is converted in place, nothing is
dropped. -/
theorem process_dataframe_eq (pre post : List (Nat × SheetRow)) (i0 : Nat) (p0 : SheetRow)
    (plist : List String)
    (hpre : ∀ r ∈ pre, r.2.unnamed1 ≠ "PRODUCTS")
    (hp0 : p0.unnamed1 = "PRODUCTS")
    (hna : ∀ r ∈ pre ++ (i0, p0) :: post, r.2.description ≠ "no avoided burden")
    (hnodup : ((pre ++ (i0, p0) :: post).map Prod.fst).Nodup) :
    ∃ plist2, process_dataframe (pre ++ (i0, p0) :: post) plist =
      some ((pre ++ (i0, p0) :: post).map (convMark (prodIdxs post)), plist2) := by
  set rows := pre ++ (i0, p0) :: post with hrows
  have hmem : (i0, p0) ∈ rows := by
    rw [hrows]; exact List.mem_append_right _ (List.mem_cons_self _ _)
  obtain ⟨v, hv⟩ := lookup_isSome_of_exists rows i0 ⟨(i0, p0), hmem, rfl⟩
  have hstep : processRowsGo rows plist 0 ((i0, p0) :: post) =
      processRowsGo rows (plist ++ [v.flowName]) 1 post := by
    simp only [processRowsGo]
    rw [if_pos (by simp [hp0])]
    rw [if_neg (by omega : ¬(0 + 1 > 1))]
    rw [hv]
  have hpres : ∀ i ∈ prodIdxs post, ∃ r ∈ rows, r.1 = i := by
    intro i hi
    obtain ⟨p, hp, hpk⟩ := List.mem_map.mp hi
    have hp2 : p ∈ post := List.mem_of_mem_filter hp
    exact ⟨p, by rw [hrows]; exact List.mem_append_right _ (List.mem_cons_of_mem _ hp2), hpk⟩
  have hnodup2 : (prodIdxs post).Nodup := by
    have h1 : (post.filter (fun p => p.2.unnamed1 == "PRODUCTS")).Sublist post :=
      List.filter_sublist _
    have h2 : (prodIdxs post).Sublist (post.map Prod.fst) := h1.map _
    have h3 : (post.map Prod.fst).Sublist (rows.map Prod.fst) := by
      rw [hrows]
      exact List.Sublist.map _ ((List.sublist_cons_self _ _).trans (List.sublist_append_right _ _))
    exact hnodup.sublist (h2.trans h3)
  obtain ⟨plist2, hseg⟩ := processRowsGo_converts post rows (plist ++ [v.flowName]) 1 le_rfl
    (fun r hr => hna r (hrows ▸ hr)) hpres hnodup2
  refine ⟨plist2, ?_⟩
  rw [process_dataframe]
  calc processRowsGo rows plist 0 rows
      = processRowsGo rows plist 0 ((i0, p0) :: post) := by
        rw [hrows]
        exact processRowsGo_skip pre rows plist 0 _ hpre
    _ = processRowsGo rows (plist ++ [v.flowName]) 1 post := hstep
    _ = some (rows.map (convMark (prodIdxs post)), plist2) := hseg

theorem set_type_row_cases (r : SheetRow) :
    set_type_row r = "production" ∨ set_type_row r = "biosphere" ∨
      set_type_row r = "technosphere" := by
  rw [set_type_row]
  by_cases h1 : containsCI "PRODUCTS" r.unnamed1 = true
  · left; rw [if_pos h1]
  · rw [if_neg h1]
    by_cases h2 : (containsSub "water" r.categories || containsSub "air" r.categories
        || containsSub "natural" r.categories || containsSub "soil" r.categories) = true
    · right; left; rw [if_pos h2]
    · right; right; rw [if_neg h2]

theorem set_type_row_ne_production (r : SheetRow)
    (h : containsCI "PRODUCTS" r.unnamed1 = false) :
    set_type_row r ≠ "production" := by
  rw [set_type_row, if_neg (by simp [h])]
  by_cases h2 : (containsSub "water" r.categories || containsSub "air" r.categories
      || containsSub "natural" r.categories || containsSub "soil" r.categories) = true
  · rw [if_pos h2]; decide
  · rw [if_neg h2]; decide

theorem count_map_eq_countP {α β : Type} [DecidableEq β] (f : α → β) (l : List α) (b : β) :
    (l.map f).count b = l.countP (fun a => f a == b) := by
  induction l with
  | nil => rfl
  | cons a t ih => simp [List.count_cons, List.countP_cons, ih]

/-- After the no-avoided-burden consolidation, exactly the first `PRODUCTS`
row types as production. -/
theorem count_production_of_convMark
    (pre post : List (Nat × SheetRow)) (i0 : Nat) (p0 : SheetRow)
    (hpre : ∀ r ∈ pre, r.2.unnamed1 ≠ "PRODUCTS")
    (hp0 : p0.unnamed1 = "PRODUCTS")
    (hmark : ∀ r ∈ pre ++ (i0, p0) :: post, r.2.unnamed1 = "PRODUCTS"
        ∨ containsCI "PRODUCTS" r.2.unnamed1 = false)
    (hnodup : ((pre ++ (i0, p0) :: post).map Prod.fst).Nodup) :
    (((pre ++ (i0, p0) :: post).map (convMark (prodIdxs post))).map
        (fun r => set_type_row r.2)).count "production" = 1 := by
  have hsplit : (pre ++ (i0, p0) :: post).map Prod.fst =
      pre.map Prod.fst ++ i0 :: post.map Prod.fst := by simp
  rw [hsplit] at hnodup
  obtain ⟨hnpre, hnrest, hdisj⟩ := List.nodup_append.mp hnodup
  obtain ⟨hi0notin, hnpost⟩ := List.nodup_cons.mp hnrest
  have hSsub : ∀ i ∈ prodIdxs post, i ∈ post.map Prod.fst := by
    intro i hi
    obtain ⟨p, hp, rfl⟩ := List.mem_map.mp hi
    exact List.mem_map_of_mem _ (List.mem_of_mem_filter hp)
  have hd2 : i0 ∉ prodIdxs post := fun h => hi0notin (hSsub _ h)
  have hd1 : ∀ r ∈ pre, r.1 ∉ prodIdxs post := fun r hr h =>
    hdisj (List.mem_map_of_mem _ hr) (List.mem_cons_of_mem _ (hSsub _ h))
  have hd3 : ∀ r ∈ post, r.1 ∈ prodIdxs post → r.2.unnamed1 = "PRODUCTS" := by
    intro r hr hS
    obtain ⟨p, hp, hpk⟩ := List.mem_map.mp hS
    have hp2 : p ∈ post := (List.mem_filter.mp hp).1
    have hq : (p.2.unnamed1 == "PRODUCTS") = true := (List.mem_filter.mp hp).2
    have hpr : p = r :=
      List.inj_on_of_nodup_map hnpost hp2 hr hpk
    rw [← hpr]
    exact beq_iff_eq.mp hq
  rw [List.map_map, count_map_eq_countP, List.countP_append, List.countP_cons]
  have hc1 : pre.countP
      (fun a => ((fun r => set_type_row r.2) ∘ convMark (prodIdxs post)) a == "production") = 0 := by
    rw [List.countP_eq_zero]
    intro r hr
    have hcm : convMark (prodIdxs post) r = r := by
      simp [convMark, hd1 r hr]
    simp only [Function.comp, hcm]
    rcases hmark r (List.mem_append_left _ hr) with hm | hm
    · exact absurd hm (hpre r hr)
    · simpa using set_type_row_ne_production r.2 hm
  have hc2 : post.countP
      (fun a => ((fun r => set_type_row r.2) ∘ convMark (prodIdxs post)) a == "production") = 0 := by
    rw [List.countP_eq_zero]
    intro r hr
    simp only [Function.comp]
    by_cases hP : r.2.unnamed1 = "PRODUCTS"
    · have hS : r.1 ∈ prodIdxs post :=
        List.mem_map_of_mem _ (List.mem_filter.mpr ⟨hr, by simp [hP]⟩)
      have hcm : convMark (prodIdxs post) r = (r.1, convertRow r.2) := by
        simp [convMark, hS]
      rw [hcm]
      have hci : containsCI "PRODUCTS" (convertRow r.2).unnamed1 = false := by
        show containsCI "PRODUCTS" "INPUTS" = false
        decide
      simpa using set_type_row_ne_production _ hci
    · have hnS : r.1 ∉ prodIdxs post := fun h => hP (hd3 r hr h)
      have hcm : convMark (prodIdxs post) r = r := by simp [convMark, hnS]
      rw [hcm]
      rcases hmark r (List.mem_append_right _ (List.mem_cons_of_mem _ hr)) with hm | hm
      · exact absurd hm hP
      · simpa using set_type_row_ne_production r.2 hm
  have hcp : set_type_row (convMark (prodIdxs post) (i0, p0)).2 = "production" := by
    have hcm : convMark (prodIdxs post) (i0, p0) = (i0, p0) := by
      simp [convMark, hd2]
    rw [hcm]
    show set_type_row p0 = "production"
    rw [set_type_row, if_pos (by rw [hp0]; decide)]
  rw [hc1, hc2]
  simp only [Function.comp]
  simp [hcp]

/-- Claim C6 counterexample: with a "no avoided burden" marker row present
elsewhere in the sheet, the second `PRODUCTS` row is left unconverted (the
code only drops the marker rows), so after classification two entries type
as "production", not exactly one. -/
theorem C6_two_productions_counterexample :
    (process_dataframe
        [(0, ⟨"PRODUCTS", "main", "", 1, ""⟩),
         (1, ⟨"PRODUCTS", "byprod", "", 2, ""⟩),
         (2, ⟨"INPUTS", "steel", "no avoided burden", 3, ""⟩)] []).map
      (fun out => (out.1.map (fun r => set_type_row r.2)).count "production") = some 2 ∧
    (2 : Nat) ≠ 1 := by
  with_unfolding_all decide

/-- Claim C6 (amended): every classified entry's type is one of
production / biosphere / technosphere; and on a sheet with no
"no avoided burden" marker, whose marker column reads exactly "PRODUCTS" on
product rows and contains no "products" otherwise, `process_dataframe`
succeeds and leaves exactly one entry typing as "production" (every later
`PRODUCTS` row is converted to an `INPUTS` row).  With a marker present,
later `PRODUCTS` rows survive and more than one production entry can
remain. -/
theorem C6_type_exhaustive_and_single_production :
    (∀ r : SheetRow, set_type_row r = "production" ∨ set_type_row r = "biosphere"
        ∨ set_type_row r = "technosphere") ∧
    (∀ (pre post : List (Nat × SheetRow)) (i0 : Nat) (p0 : SheetRow) (plist : List String),
      (∀ r ∈ pre, r.2.unnamed1 ≠ "PRODUCTS") →
      p0.unnamed1 = "PRODUCTS" →
      (∀ r ∈ pre ++ (i0, p0) :: post, r.2.description ≠ "no avoided burden") →
      (∀ r ∈ pre ++ (i0, p0) :: post, r.2.unnamed1 = "PRODUCTS"
          ∨ containsCI "PRODUCTS" r.2.unnamed1 = false) →
      ((pre ++ (i0, p0) :: post).map Prod.fst).Nodup →
      ∃ out, process_dataframe (pre ++ (i0, p0) :: post) plist = some out ∧
        (out.1.map (fun r => set_type_row r.2)).count "production" = 1) := by
  refine ⟨set_type_row_cases, ?_⟩
  intro pre post i0 p0 plist hpre hp0 hna hmark hnodup
  obtain ⟨plist2, heq⟩ := process_dataframe_eq pre post i0 p0 plist hpre hp0 hna hnodup
  exact ⟨_, heq,
    count_production_of_convMark pre post i0 p0 hpre hp0 hmark hnodup⟩

/-- Claim C6 witness: a two-row sheet (product then by-product, no marker)
is consolidated to a single production-typed entry. -/
theorem C6_type_exhaustive_and_single_production_witness :
    ∃ out, process_dataframe
        [(0, ⟨"PRODUCTS", "main", "", 1, ""⟩), (1, ⟨"PRODUCTS", "byprod", "", 2, ""⟩)] [] =
        some out ∧
      (out.1.map (fun r => set_type_row r.2)).count "production" = 1 :=
  C6_type_exhaustive_and_single_production.2 [] [(1, ⟨"PRODUCTS", "byprod", "", 2, ""⟩)]
    0 ⟨"PRODUCTS", "main", "", 1, ""⟩ []
    (by decide) (by decide) (by decide) (by decide) (by decide)

/-! ### Lemmas for the Reconciler -/

theorem all_of_perm {α : Type} (p : α → Bool) {l1 l2 : List α} (h : l1.Perm l2) :
    l1.all p = l2.all p := by
  induction h with
  | nil => rfl
  | cons x _ ih => simp [List.all_cons, ih]
  | swap x y l => simp [List.all_cons, ← Bool.and_assoc, Bool.and_comm (p y) (p x)]
  | trans _ _ ih1 ih2 => rw [ih1, ih2]

theorem ordInsert_perm {α : Type} (le : α → α → Bool) (x : α) (l : List α) :
    (ordInsert le x l).Perm (x :: l) := by
  induction l with
  | nil => exact List.Perm.refl _
  | cons y ys ih =>
    rw [ordInsert]
    by_cases h : le x y = true
    · rw [if_pos h]
    · rw [if_neg h]
      exact (ih.cons y).trans (List.Perm.swap x y ys)

theorem insSort_perm {α : Type} (le : α → α → Bool) (l : List α) :
    (insSort le l).Perm l := by
  induction l with
  | nil => exact List.Perm.refl _
  | cons x xs ih =>
    rw [insSort]
    exact (ordInsert_perm le x (insSort le xs)).trans (ih.cons x)

theorem ordInsert_zip_perm :
    ∀ (s1 s2 : List (String × ColData)) (a b : String × ColData),
      s1.map Prod.fst = s2.map Prod.fst → a.1 = b.1 →
      ((ordInsert (fun a b => strLe a.1 b.1) a s1).zip
          (ordInsert (fun a b => strLe a.1 b.1) b s2)).Perm ((a, b) :: s1.zip s2) ∧
        (ordInsert (fun a b => strLe a.1 b.1) a s1).map Prod.fst =
          (ordInsert (fun a b => strLe a.1 b.1) b s2).map Prod.fst := by
  intro s1
  induction s1 with
  | nil =>
    intro s2 a b hfst hab
    cases s2 with
    | nil => exact ⟨List.Perm.refl _, by simp [ordInsert, hab]⟩
    | cons d ds => simp at hfst
  | cons c cs ih =>
    intro s2 a b hfst hab
    cases s2 with
    | nil => simp at hfst
    | cons d ds =>
      have hcd : c.1 = d.1 ∧ cs.map Prod.fst = ds.map Prod.fst := by simpa using hfst
      rw [ordInsert, ordInsert]
      by_cases h : strLe a.1 c.1 = true
      · rw [if_pos h, if_pos (by rw [← hab, ← hcd.1]; exact h)]
        exact ⟨List.Perm.refl _, by simp [hab, hcd.1, hcd.2]⟩
      · rw [if_neg h, if_neg (by rw [← hab, ← hcd.1]; exact h)]
        obtain ⟨hperm, hm⟩ := ih ds a b hcd.2 hab
        constructor
        · show ((c, d) :: ((ordInsert (fun a b => strLe a.1 b.1) a cs).zip
              (ordInsert (fun a b => strLe a.1 b.1) b ds))).Perm
            ((a, b) :: (c, d) :: cs.zip ds)
          exact (hperm.cons (c, d)).trans (List.Perm.swap (a, b) (c, d) (cs.zip ds))
        · simp [hcd.1, hm]

theorem insSort_zip_perm :
    ∀ (l1 l2 : List (String × ColData)),
      l1.map Prod.fst = l2.map Prod.fst →
      ((insSort (fun a b => strLe a.1 b.1) l1).zip
          (insSort (fun a b => strLe a.1 b.1) l2)).Perm (l1.zip l2) ∧
        (insSort (fun a b => strLe a.1 b.1) l1).map Prod.fst =
          (insSort (fun a b => strLe a.1 b.1) l2).map Prod.fst := by
  intro l1
  induction l1 with
  | nil =>
    intro l2 hfst
    cases l2 with
    | nil => exact ⟨List.Perm.refl _, rfl⟩
    | cons d ds => simp at hfst
  | cons a t ih =>
    intro l2 hfst
    cases l2 with
    | nil => simp at hfst
    | cons b u =>
      have hab : a.1 = b.1 ∧ t.map Prod.fst = u.map Prod.fst := by simpa using hfst
      rw [insSort, insSort]
      obtain ⟨hperm0, hm0⟩ := ih u hab.2
      obtain ⟨hperm1, hm1⟩ := ordInsert_zip_perm _ _ a b hm0 hab.1
      exact ⟨hperm1.trans (hperm0.cons (a, b)), hm1⟩

theorem npIsClose_refl (x : Option Frac) :
    npIsClose ⟨1, 100000000⟩ x x = true := by
  cases x with
  | none => rfl
  | some v =>
    simp only [npIsClose, Frac.le, Frac.abs, Frac.sub, Frac.add, Frac.mul,
      decide_eq_true_eq]
    have h0 : v.num * v.den - v.num * v.den = 0 := sub_self _
    rw [h0]
    simp only [abs_zero, zero_mul]
    positivity

theorem cellOKAt_diag (nfkc : String → String) (c : ColData) (j : Nat) :
    cellOKAt ⟨1, 100000000⟩ (roundPair (pairUp nfkc c c)) j = true := by
  cases c with
  | numCol a =>
    simp only [pairUp, roundPair, cellOKAt]
    exact npIsClose_refl _
  | objCol a =>
    simp only [pairUp, roundPair, cellOKAt]
    exact beq_self_eq_true _

theorem zip_self_eq_map {α : Type} (l : List α) : l.zip l = l.map (fun c => (c, c)) := by
  induction l with
  | nil => rfl
  | cons a t ih => simp [List.zip_cons_cons, ih]

theorem getD_map_option {α β : Type} (f : α → β) (l : List (Option α)) :
    ∀ j, (l.map (Option.map f)).getD j none = Option.map f (l.getD j none) := by
  induction l with
  | nil => intro j; rfl
  | cons a t ih =>
    intro j
    cases j with
    | zero => rfl
    | succ j2 => exact ih j2

theorem getD_some_lt_length {α : Type} (l : List (Option α)) (j : Nat) (x : α)
    (h : l.getD j none = some x) : j < l.length := by
  by_contra hge
  rw [List.getD_eq_getElem?_getD, List.getElem?_eq_none (by omega)] at h
  exact absurd h (by simp)

theorem tableRowCount_col_length (t : Table) (n : Nat) (h : tableRowCount t = some n) :
    ∀ c ∈ t.cols, colLength c.2 = n := by
  rw [tableRowCount] at h
  cases hc : t.cols with
  | nil => simp [hc]
  | cons c0 rest =>
    rw [hc] at h
    dsimp only at h
    by_cases hall : rest.all (fun d => colLength d.2 == colLength c0.2) = true
    · rw [if_pos hall] at h
      cases h
      intro c hcmem
      rcases List.mem_cons.mp hcmem with rfl | hmem
      · rfl
      · exact beq_iff_eq.mp (List.all_eq_true.mp hall c hmem)
    · rw [if_neg hall] at h
      exact absurd h (by simp)

theorem rowVerdicts_count_one (pairs : List PairCol) (n j : Nat) (hj : j < n)
    (hbad : pairs.all (fun p => cellOKAt ⟨1, 100000000⟩ p j) = false)
    (hgood : ∀ j2 < n, j2 ≠ j →
      pairs.all (fun p => cellOKAt ⟨1, 100000000⟩ p j2) = true) :
    (rowVerdicts ⟨1, 100000000⟩ pairs n).count "Not Equal" = 1 := by
  rw [rowVerdicts, count_map_eq_countP]
  have hcong : ∀ j2 ∈ List.range n,
      (((if pairs.all (fun p => cellOKAt ⟨1, 100000000⟩ p j2) then "Equal"
          else "Not Equal") == "Not Equal") = true ↔ (j2 == j) = true) := by
    intro j2 hj2
    by_cases he : j2 = j
    · rw [he, hbad]
      simp
    · rw [hgood j2 (List.mem_range.mp hj2) he]
      simp [he]
  rw [List.countP_congr hcong]
  have : List.countP (fun j2 => j2 == j) (List.range n) = (List.range n).count j := rfl
  rw [this]
  exact List.count_eq_one_of_mem (List.nodup_range n) (List.mem_range.mpr hj)

theorem coerceQuantity_some_cols (t c : Table) (h : coerceQuantity t = some c) :
    c.cols = t.cols.map
      (fun cc => if cc.1 == "QUANTITY" then (cc.1, toNumericCol cc.2) else cc) := by
  rw [coerceQuantity] at h
  split at h
  · cases h; rfl
  · exact absurd h (by simp)

theorem compare_results_some (nfkc : String → String) (tol : Frac) (df1 df2 m1 m2 : Table)
    (res : List String)
    (h : compare_results nfkc tol df1 df2 = some (m1, m2, res)) :
    ∃ c1 c2 n,
      coerceQuantity df1 = some c1 ∧ coerceQuantity df2 = some c2 ∧
      m1 = renameCols c1 ∧ m2 = renameCols c2 ∧
      tableRowCount (sortCols (renameCols c1)) = some n ∧
      res = rowVerdicts tol
        (((sortCols (renameCols c1)).cols.zip (sortCols (renameCols c2)).cols).map
          (fun cc => roundPair (pairUp nfkc cc.1.2 cc.2.2))) n := by
  rw [compare_results] at h
  cases hc1 : coerceQuantity df1 with
  | none => rw [hc1] at h; exact absurd h (by simp)
  | some c1 =>
    rw [hc1] at h
    cases hc2 : coerceQuantity df2 with
    | none => rw [hc2] at h; exact absurd h (by simp)
    | some c2 =>
      rw [hc2] at h
      simp only at h
      split at h
      · split at h
        · split at h
          · rename_i hnames n1 n2 hn1 hn2 hnn
            cases h
            exact ⟨c1, c2, n1, rfl, rfl, rfl, rfl, hn1, rfl⟩
          · exact absurd h (by simp)
        · exact absurd h (by simp)
      · exact absurd h (by simp)

/-- Identical tables compare Equal on every row. -/
theorem compare_results_self_all_equal (nfkc : String → String) (t m1 m2 : Table)
    (res : List String)
    (h : compare_results nfkc ⟨1, 100000000⟩ t t = some (m1, m2, res)) :
    res.count "Not Equal" = 0 ∧ ∀ v ∈ res, v = "Equal" := by
  obtain ⟨c1, c2, n, hc1, hc2, _, _, _, hres⟩ :=
    compare_results_some nfkc ⟨1, 100000000⟩ t t m1 m2 res h
  have hcc : c1 = c2 := by
    rw [hc1] at hc2
    exact Option.some.inj hc2
  subst hcc
  have hall : ∀ v ∈ res, v = "Equal" := by
    rw [hres]
    intro v hv
    rw [rowVerdicts] at hv
    obtain ⟨j, _, rfl⟩ := List.mem_map.mp hv
    rw [if_pos ?_]
    rw [zip_self_eq_map, List.map_map, List.all_eq_true]
    intro p hp
    obtain ⟨c, _, rfl⟩ := List.mem_map.mp hp
    exact cellOKAt_diag nfkc c.2 j
  refine ⟨?_, hall⟩
  rw [List.count_eq_zero]
  intro hmem
  exact absurd (hall _ hmem) (by decide)

/-- Tables that agree everywhere except in one numeric cell, whose rounded
values exceed the combined tolerance, have exactly one "Not Equal" row. -/
theorem compare_results_one_diff (nfkc : String → String)
    (A B : List (String × ColData)) (nm : String)
    (v1 v2 : List (Option Frac)) (j : Nat) (x y : Frac) (m1 m2 : Table)
    (res : List String)
    (heq : ∀ j2, j2 ≠ j → v1.getD j2 none = v2.getD j2 none)
    (hx : v1.getD j none = some x) (hy : v2.getD j none = some y)
    (htol : npIsClose ⟨1, 100000000⟩ (some (round5 x)) (some (round5 y)) = false)
    (h : compare_results nfkc ⟨1, 100000000⟩
        ⟨A ++ (nm, ColData.numCol v1) :: B⟩ ⟨A ++ (nm, ColData.numCol v2) :: B⟩ =
      some (m1, m2, res)) :
    res.count "Not Equal" = 1 := by
  obtain ⟨c1, c2, n, hc1, hc2, _, _, hn1, hres⟩ :=
    compare_results_some nfkc ⟨1, 100000000⟩ _ _ m1 m2 res h
  set u : String × ColData → String × ColData :=
    fun cc => if cc.1 == "QUANTITY" then (cc.1, toNumericCol cc.2) else cc with hu
  set ren : String × ColData → String × ColData :=
    fun c => (pyLower (pyStrip c.1), c.2) with hren
  have humid : ∀ v : List (Option Frac),
      ren (u (nm, ColData.numCol v)) = (pyLower (pyStrip nm), ColData.numCol v) := by
    intro v
    rw [hu, hren]
    by_cases hq : (nm == "QUANTITY") = true
    · simp [hq, toNumericCol]
    · simp [hq]
  have hcols : ∀ (v : List (Option Frac)) (c : Table),
      coerceQuantity ⟨A ++ (nm, ColData.numCol v) :: B⟩ = some c →
      (renameCols c).cols =
        A.map (fun cc => ren (u cc)) ++
          (pyLower (pyStrip nm), ColData.numCol v) :: B.map (fun cc => ren (u cc)) := by
    intro v c hc
    have h1 := coerceQuantity_some_cols _ _ hc
    show (c.cols.map ren) = _
    rw [h1]
    rw [← hu]
    simp only [List.map_append, List.map_cons, List.map_map]
    rw [humid v]
    rfl
  have hm1cols := hcols v1 c1 hc1
  have hm2cols := hcols v2 c2 hc2
  set A2 := A.map (fun cc => ren (u cc)) with hA2
  set B2 := B.map (fun cc => ren (u cc)) with hB2
  set nm2 := pyLower (pyStrip nm) with hnm2
  have hfst : (renameCols c1).cols.map Prod.fst = (renameCols c2).cols.map Prod.fst := by
    rw [hm1cols, hm2cols]
    simp
  obtain ⟨hzipperm, _⟩ := insSort_zip_perm (renameCols c1).cols (renameCols c2).cols hfst
  have hzip : (renameCols c1).cols.zip (renameCols c2).cols =
      A2.zip A2 ++ ((nm2, ColData.numCol v1), (nm2, ColData.numCol v2)) :: B2.zip B2 := by
    rw [hm1cols, hm2cols]
    rw [List.zip_append rfl]
    rfl
  set g : (String × ColData) × (String × ColData) → PairCol :=
    fun cc => roundPair (pairUp nfkc cc.1.2 cc.2.2) with hg
  set pairs := ((sortCols (renameCols c1)).cols.zip (sortCols (renameCols c2)).cols).map g
    with hpairs
  have hpairsperm : pairs.Perm
      ((A2.zip A2).map g ++
        g ((nm2, ColData.numCol v1), (nm2, ColData.numCol v2)) :: (B2.zip B2).map g) := by
    rw [hpairs]
    have := hzipperm.map g
    rw [hzip] at this
    simpa using this
  have hmid : g ((nm2, ColData.numCol v1), (nm2, ColData.numCol v2)) =
      PairCol.numPair (v1.map (Option.map round5)) (v2.map (Option.map round5)) := by
    rw [hg]
    rfl
  have hmidOK : ∀ j2, j2 ≠ j →
      cellOKAt ⟨1, 100000000⟩
        (PairCol.numPair (v1.map (Option.map round5)) (v2.map (Option.map round5))) j2 = true := by
    intro j2 hne
    rw [cellOKAt, getD_map_option, getD_map_option, heq j2 hne]
    exact npIsClose_refl _
  have hmidBad :
      cellOKAt ⟨1, 100000000⟩
        (PairCol.numPair (v1.map (Option.map round5)) (v2.map (Option.map round5))) j = false := by
    rw [cellOKAt, getD_map_option, getD_map_option, hx, hy]
    exact htol
  have hdiagOK : ∀ (l : List (String × ColData)) (j2 : Nat),
      ((l.zip l).map g).all (fun p => cellOKAt ⟨1, 100000000⟩ p j2) = true := by
    intro l j2
    rw [zip_self_eq_map, List.map_map, List.all_eq_true]
    intro p hp
    obtain ⟨c, _, rfl⟩ := List.mem_map.mp hp
    exact cellOKAt_diag nfkc c.2 j2
  have hbad : pairs.all (fun p => cellOKAt ⟨1, 100000000⟩ p j) = false := by
    rw [all_of_perm _ hpairsperm]
    rw [List.all_append, List.all_cons, hmid, hmidBad]
    simp
  have hgood : ∀ j2 < n, j2 ≠ j →
      pairs.all (fun p => cellOKAt ⟨1, 100000000⟩ p j2) = true := by
    intro j2 _ hne
    rw [all_of_perm _ hpairsperm]
    rw [List.all_append, List.all_cons, hmid, hmidOK j2 hne]
    simp [hdiagOK A2 j2, hdiagOK B2 j2]
  have hjn : j < n := by
    have hmem : (nm2, ColData.numCol v1) ∈ (sortCols (renameCols c1)).cols := by
      rw [sortCols]
      rw [(insSort_perm _ _).mem_iff]
      rw [hm1cols]
      exact List.mem_append_right _ (List.mem_cons_self _ _)
    have hlen := tableRowCount_col_length _ _ hn1 _ hmem
    rw [colLength] at hlen
    have := getD_some_lt_length v1 j x hx
    omega
  rw [hres]
  exact rowVerdicts_count_one pairs n j hjn hbad hgood

/-- Claim C5 counterexample: two one-column tables whose single numeric
cells differ by 1e-6 — more than the absolute tolerance 1e-8 — still
compare "Equal" with zero "Not Equal" rows, because both cells round to the
same 5-decimal value (and np.isclose keeps its default relative tolerance
1e-5). -/
theorem C5_rounding_counterexample :
    Frac.le (Frac.abs (Frac.sub ⟨1000001, 1000000⟩ ⟨1000002, 1000000⟩))
        ⟨1, 100000000⟩ = false ∧
    compare_results id ⟨1, 100000000⟩
        ⟨[("QUANTITY", ColData.numCol [some ⟨1000001, 1000000⟩])]⟩
        ⟨[("QUANTITY", ColData.numCol [some ⟨1000002, 1000000⟩])]⟩ =
      some (⟨[("quantity", ColData.numCol [some ⟨1000001, 1000000⟩])]⟩,
            ⟨[("quantity", ColData.numCol [some ⟨1000002, 1000000⟩])]⟩,
            ["Equal"]) := by decide

/-- Claim C5 (amended): with the default tolerance, identical tables give
"Equal" on every row and a zero "Not Equal" count; and tables differing in
exactly one numeric cell give exactly one "Not Equal" row provided the two
cell values still differ after rounding to 5 decimals by more than
np.isclose's combined tolerance (absolute 1e-8 plus relative 1e-5 of the
second value).  A difference that merely exceeds 1e-8 is not enough. -/
theorem C5_compare_results_verdicts :
    (∀ (nfkc : String → String) (t m1 m2 : Table) (res : List String),
      compare_results nfkc ⟨1, 100000000⟩ t t = some (m1, m2, res) →
      res.count "Not Equal" = 0 ∧ ∀ v ∈ res, v = "Equal") ∧
    (∀ (nfkc : String → String) (A B : List (String × ColData)) (nm : String)
        (v1 v2 : List (Option Frac)) (j : Nat) (x y : Frac) (m1 m2 : Table)
        (res : List String),
      (∀ j2, j2 ≠ j → v1.getD j2 none = v2.getD j2 none) →
      v1.getD j none = some x → v2.getD j none = some y →
      npIsClose ⟨1, 100000000⟩ (some (round5 x)) (some (round5 y)) = false →
      compare_results nfkc ⟨1, 100000000⟩ ⟨A ++ (nm, ColData.numCol v1) :: B⟩
          ⟨A ++ (nm, ColData.numCol v2) :: B⟩ = some (m1, m2, res) →
      res.count "Not Equal" = 1) :=
  ⟨compare_results_self_all_equal, compare_results_one_diff⟩

/-- Claim C5 witness: a two-row QUANTITY table differing only in its second
cell (2 vs 5, far beyond the combined tolerance) yields exactly one
"Not Equal" row. -/
theorem C5_compare_results_verdicts_witness :
    (["Equal", "Not Equal"] : List String).count "Not Equal" = 1 :=
  C5_compare_results_verdicts.2 id [] [] "QUANTITY"
    [some ⟨1, 1⟩, some ⟨2, 1⟩] [some ⟨1, 1⟩, some ⟨5, 1⟩] 1 ⟨2, 1⟩ ⟨5, 1⟩
    ⟨[("quantity", ColData.numCol [some ⟨1, 1⟩, some ⟨2, 1⟩])]⟩
    ⟨[("quantity", ColData.numCol [some ⟨1, 1⟩, some ⟨5, 1⟩])]⟩
    ["Equal", "Not Equal"]
    (fun j2 hne => by
      match j2 with
      | 0 => rfl
      | 1 => exact absurd rfl hne
      | j2 + 2 => rfl)
    rfl rfl (by decide) (by decide)
